import Mathlib

/-!
Shallow embedding of `repo-watcher` (src/main.go).

The program watches a root directory of "repositories".  Its state is the
global map `currentlyWatching` together with the inner fsnotify watcher's
subscription list and the log; filesystem access (`os.Stat`) is modelled by
an explicit map from paths to an entry kind, and the compiled regular
expression / external command are modelled as function parameters.
-/

namespace RepoWatcher

/-- Result of `os.Stat` on a path: a regular file, a directory, a path that
does not exist (`os.IsNotExist` error), or a stat failure with some other
error (e.g. permission denied), where `os.IsNotExist` is false and the
returned `FileInfo` is nil. -/
inductive FSEntry
| file
| dir
| absent
| inaccessible
deriving DecidableEq, Repr

/-- A snapshot of the filesystem as observed through `os.Stat`. -/
def FS := String → FSEntry

/-- `logType` from main.go: `logInfo` and `logError`. -/
inductive LogType
| info
| error
deriving DecidableEq, Repr

/-- The mutable program state: the `currentlyWatching` map (a set of
repository paths), the inner watcher's subscription list (paths passed to
`watcher.Add` and not yet removed), and the lines written by `log`. -/
structure WatcherState where
  currentlyWatching : List String
  watcherSubs : List String
  logLines : List (LogType × String)
deriving DecidableEq, Repr

/-- `currentlyWatching = map[string]bool{}` at startup; no subscriptions,
no log lines relevant to the registry. -/
def initialState : WatcherState := ⟨[], [], []⟩

/-- `log(kind, message)`: appends one line (stdout and the append-only log
file carry the same message; we record the sequence of calls). -/
def appendLog (kind : LogType) (message : String) (s : WatcherState) : WatcherState :=
  { s with logLines := s.logLines ++ [(kind, message)] }

/-- `string(os.PathSeparator)` on the host OS (Linux). -/
def separator : String := "/"

/-- Character-level worker for `strings.Split` with the single-character
separator `/`: splits around each instance of the separator, keeping empty
fields. -/
def splitChars : List Char → List (List Char)
  | [] => [[]]
  | c :: rest =>
    let r := splitChars rest
    if c = '/' then [] :: r
    else
      match r with
      | [] => [[c]]
      | h :: t => (c :: h) :: t

/-- `strings.Split(s, separator)` (standard library collaborator) for the
OS separator. -/
def stringsSplit (s : String) : List String :=
  (splitChars s.data).map (fun l => ⟨l⟩)

/-- `strings.Join(elems, sep)` (standard library collaborator). -/
def stringsJoin (sep : String) : List String → String
  | [] => ""
  | [x] => x
  | x :: rest => x ++ sep ++ stringsJoin sep rest

/-- Stack pass of `filepath.Clean`'s documented rules: drop empty and `.`
elements; an inner `..` removes the preceding non-`..` element; a `..` at
the start of a rooted path is dropped, otherwise kept.  `acc` holds the
already-processed elements in reverse order. -/
def cleanStack (rooted : Bool) : List String → List String → List String
  | acc, [] => acc.reverse
  | acc, seg :: rest =>
    if seg = "" ∨ seg = "." then
      cleanStack rooted acc rest
    else if seg = ".." then
      match acc with
      | [] => if rooted then cleanStack rooted [] rest else cleanStack rooted [".."] rest
      | t :: tl =>
        if t = ".." then cleanStack rooted (".." :: t :: tl) rest
        else cleanStack rooted tl rest
    else
      cleanStack rooted (seg :: acc) rest

/-- `filepath.Clean` (standard library collaborator, Unix separator),
implemented from its documented lexical rules. -/
def clean (path : String) : String :=
  if path = "" then "."
  else
    let rooted : Bool :=
      match path.data with
      | '/' :: _ => true
      | _ => false
    let segs := cleanStack rooted [] (stringsSplit path)
    let joined := stringsJoin "/" segs
    if rooted then
      if joined = "" then "/" else "/" ++ joined
    else
      if joined = "" then "." else joined

/-- `filepath.Split` (standard library collaborator): splits a path
immediately after the final separator into a directory part (keeping the
trailing separator) and a file-name part. -/
def filepathSplit (path : String) : String × String :=
  let r := path.data.reverse
  (⟨(r.dropWhile (fun c => c ≠ '/')).reverse⟩, ⟨(r.takeWhile (fun c => c ≠ '/')).reverse⟩)

/-- `filterEmptyParts` from main.go: keeps the elements of positive length. -/
def filterEmptyParts (elements : List String) : List String :=
  elements.filter (fun element => element.length > 0)

/-- `addRepo(path)` from main.go: clean the path; return unless it stats as
a directory; return unless `<cleanPath>/<watchPath>` (cleaned) stats as a
directory; under the mutex, if the path is not yet a member, log the
addition, register the inner subscription for the target path and record
membership. -/
def addRepo (fs : FS) (watchPath : String) (path : String) (s : WatcherState) : WatcherState :=
  let cleanPath := clean path
  if fs cleanPath ≠ FSEntry.dir then s
  else
    let targetPath := clean (cleanPath ++ "/" ++ watchPath)
    if fs targetPath ≠ FSEntry.dir then s
    else if cleanPath ∈ s.currentlyWatching then s
    else
      let s1 := appendLog LogType.info ("[RepoWatch] Adding repo: " ++ cleanPath) s
      { s1 with
          watcherSubs := s1.watcherSubs ++ [targetPath],
          currentlyWatching := s1.currentlyWatching ++ [cleanPath] }

/-- `removeRepo(path)` from main.go: clean the path; under the mutex, if it
is a member, log the removal, unregister the inner subscription for
`<cleanPath>/<watchPath>` (cleaned) and delete membership; otherwise do
nothing. -/
def removeRepo (watchPath : String) (path : String) (s : WatcherState) : WatcherState :=
  let cleanPath := clean path
  let targetPath := clean (cleanPath ++ "/" ++ watchPath)
  if cleanPath ∈ s.currentlyWatching then
    let s1 := appendLog LogType.info ("[RepoWatch] Removing repo: " ++ cleanPath) s
    { s1 with
        watcherSubs := s1.watcherSubs.erase targetPath,
        currentlyWatching := s1.currentlyWatching.erase cleanPath }
  else s

/-- fsnotify operation bits (fsnotify v1). -/
def fsnotifyCreate : Nat := 1

/-- fsnotify `Write` bit. -/
def fsnotifyWrite : Nat := 2

/-- fsnotify `Remove` bit. -/
def fsnotifyRemove : Nat := 4

/-- fsnotify `Rename` bit. -/
def fsnotifyRename : Nat := 8

/-- fsnotify `Chmod` bit. -/
def fsnotifyChmod : Nat := 16

/-- An fsnotify event: a path and an operation bitmask. -/
structure FsnotifyEvent where
  name : String
  op : Nat
deriving DecidableEq, Repr

/-- `processReposEvent` from main.go: dispatch on the event's operation
bits in the order Create, Chmod, Rename, Remove; anything else falls
through with no effect. -/
def processReposEvent (fs : FS) (watchPath : String) (event : FsnotifyEvent)
    (s : WatcherState) : WatcherState :=
  if event.op &&& fsnotifyCreate == fsnotifyCreate then addRepo fs watchPath event.name s
  else if event.op &&& fsnotifyChmod == fsnotifyChmod then addRepo fs watchPath event.name s
  else if event.op &&& fsnotifyRename == fsnotifyRename then removeRepo watchPath event.name s
  else if event.op &&& fsnotifyRemove == fsnotifyRemove then removeRepo watchPath event.name s
  else s

/-- Outcome of the path-matching part of `processEvent`:
`skip` — an early `return` (nonexistent path, directory, or basename
mismatch); `nilDeref` — `os.Stat` failed with an error other than
not-exist, so `info` is nil and `info.IsDir()` dereferences it;
`sliceOutOfRange` — `dirPathParts[:len(reposRootParts)+1]` indexes past
the slice's length; `run repoPath` — the command is executed with working
directory `repoPath`. -/
inductive ProcOutcome
| skip
| nilDeref
| sliceOutOfRange
| run (repoPath : String)
deriving DecidableEq, Repr

/-- The path-matching part of `processEvent` from main.go: stat the event
path (skipping not-exist, panicking on a nil `FileInfo` for other stat
errors, skipping directories), split off the basename and test it against
the compiled pattern, then rebuild the repository path from the first
`len(reposRootParts)+1` directory segments.  The Go slice expression
panics when that count exceeds the slice's extent, modelled by the
`sliceOutOfRange` outcome. -/
def processEvent (fs : FS) (reposRoot : String) (pattern : String → Bool)
    (eventName : String) : ProcOutcome :=
  match fs eventName with
  | FSEntry.absent => ProcOutcome.skip
  | FSEntry.inaccessible => ProcOutcome.nilDeref
  | FSEntry.dir => ProcOutcome.skip
  | FSEntry.file =>
    let baseName := (filepathSplit eventName).2
    if !(pattern baseName) then ProcOutcome.skip
    else
      let dir := (filepathSplit eventName).1
      let reposRootParts := filterEmptyParts (stringsSplit reposRoot)
      let dirPathParts := filterEmptyParts (stringsSplit dir)
      if reposRootParts.length + 1 ≤ dirPathParts.length then
        ProcOutcome.run
          (stringsJoin separator (dirPathParts.take (reposRootParts.length + 1)))
      else ProcOutcome.sliceOutOfRange

/-- `processEvent` including the action and logging: on a match, log the
execution message, run the external command (`cmd.Output()`, modelled by
`runCommand`), and log either the error or the captured output.  `none`
models the two panicking outcomes, which kill the event goroutine. -/
def processEventFull (fs : FS) (reposRoot execute : String) (pattern : String → Bool)
    (runCommand : String → Except String String) (eventName : String)
    (s : WatcherState) : Option WatcherState :=
  match processEvent fs reposRoot pattern eventName with
  | ProcOutcome.skip => some s
  | ProcOutcome.nilDeref => none
  | ProcOutcome.sliceOutOfRange => none
  | ProcOutcome.run repoPath =>
    let s1 := appendLog LogType.info
      ("[RepoWatch] Executing \"" ++ execute ++ "\" in \"" ++ repoPath ++ "\"") s
    match runCommand repoPath with
    | Except.error msg => some (appendLog LogType.error msg s1)
    | Except.ok output => some (appendLog LogType.info output s1)

/-- The file-event loop: events from the inner watcher channel are handled
strictly sequentially by `processEvent`. -/
def fileLoop (fs : FS) (reposRoot execute : String) (pattern : String → Bool)
    (runCommand : String → Except String String) :
    List String → WatcherState → Option WatcherState
  | [], s => some s
  | e :: rest, s =>
    match processEventFull fs reposRoot execute pattern runCommand e s with
    | none => none
    | some s1 => fileLoop fs reposRoot execute pattern runCommand rest s1

/-- `checkError(e)` from main.go: when the error is non-nil its message is
logged at error level; in either case control returns to the caller. -/
def checkError (e : Option String) (logs : List (LogType × String)) :
    List (LogType × String) :=
  match e with
  | some msg => logs ++ [(LogType.error, msg)]
  | none => logs

/-- The error component of `regexp.Compile`'s result. -/
def compileErr : Except String (String → Bool) → Option String
  | Except.error msg => some msg
  | Except.ok _ => none

/-- The pattern component of `regexp.Compile`'s result: nil on failure. -/
def compilePat : Except String (String → Bool) → Option (String → Bool)
  | Except.error _ => none
  | Except.ok p => some p

/-- The state `main` is in when it calls `watchRepos`. -/
structure StartupState where
  watcherRegexp : Option (String → Bool)
  logs : List (LogType × String)
  reachedWatchRepos : Bool

/-- The tail of `main` from main.go (lines 63–67): assign the result of
`regexp.Compile(config.WatchRegexp)` to `watcherRegexp`, pass the error to
`checkError` — which logs and returns — and then call
`watchRepos(config.ReposRoot)` unconditionally: no branch of `main` exits
between the compile step and the `watchRepos` call. -/
def mainAfterConfig (compileResult : Except String (String → Bool))
    (logs : List (LogType × String)) : StartupState :=
  let logs1 := checkError (compileErr compileResult) logs
  { watcherRegexp := compilePat compileResult
    logs := logs1
    reachedWatchRepos := true }

/-- Outcome of the startup stat check in `watchRepos` (lines 76–83):
panic when the root does not exist, nil-`FileInfo` dereference when
`os.Stat` fails with any other error, panic when the root is not a
directory, and fall through otherwise. -/
inductive StartupCheckOutcome
| panicMissing
| nilDeref
| panicNotDir
| proceed
deriving DecidableEq, Repr

/-- The stat check at the top of `watchRepos` from main.go. -/
def watchReposStat (fs : FS) (reposRoot : String) : StartupCheckOutcome :=
  match fs reposRoot with
  | FSEntry.absent => StartupCheckOutcome.panicMissing
  | FSEntry.inaccessible => StartupCheckOutcome.nilDeref
  | FSEntry.file => StartupCheckOutcome.panicNotDir
  | FSEntry.dir => StartupCheckOutcome.proceed

/-- A root-level registry operation together with the filesystem snapshot
`os.Stat` observes while it runs. -/
inductive RepoOp
| tryAdd (fs : FS) (path : String)
| tryRemove (path : String)

/-- Apply one registry operation. -/
def applyOp (watchPath : String) : RepoOp → WatcherState → WatcherState
  | RepoOp.tryAdd fs path, s => addRepo fs watchPath path s
  | RepoOp.tryRemove path, s => removeRepo watchPath path s

/-- Run a sequence of registry operations (the root loop is a sequential
consumer, so registry history is a list of operations). -/
def runOps (watchPath : String) : List RepoOp → WatcherState → WatcherState
  | [], s => s
  | op :: rest, s => runOps watchPath rest (applyOp watchPath op s)

/-! ### Lemmas about the registry operations -/

theorem addRepo_mem_cases (fs : FS) (wp p : String) (s : WatcherState) (q : String)
    (h : q ∈ (addRepo fs wp p s).currentlyWatching) :
    q ∈ s.currentlyWatching ∨
      (q = clean p ∧ fs (clean p) = FSEntry.dir ∧
        fs (clean (clean p ++ "/" ++ wp)) = FSEntry.dir) := by
  simp only [addRepo] at h
  split at h
  · exact Or.inl h
  · rename_i h1
    split at h
    · exact Or.inl h
    · rename_i h2
      split at h
      · exact Or.inl h
      · simp only [appendLog, List.mem_append, List.mem_singleton] at h
        rcases h with h | h
        · exact Or.inl h
        · exact Or.inr ⟨h, not_not.mp h1, not_not.mp h2⟩

theorem removeRepo_mem_subset (wp p : String) (s : WatcherState) (q : String)
    (h : q ∈ (removeRepo wp p s).currentlyWatching) : q ∈ s.currentlyWatching := by
  simp only [removeRepo] at h
  split at h
  · simp only [appendLog] at h
    exact List.mem_of_mem_erase h
  · exact h

theorem runOps_mem_cases (wp : String) (ops : List RepoOp) (s : WatcherState) (q : String)
    (h : q ∈ (runOps wp ops s).currentlyWatching) :
    q ∈ s.currentlyWatching ∨
      ∃ fs p, RepoOp.tryAdd fs p ∈ ops ∧ q = clean p ∧
        fs (clean p) = FSEntry.dir ∧ fs (clean (clean p ++ "/" ++ wp)) = FSEntry.dir := by
  induction ops generalizing s with
  | nil => exact Or.inl h
  | cons op rest ih =>
    simp only [runOps] at h
    rcases ih (applyOp wp op s) h with h1 | ⟨fs, p, hmem, hrest⟩
    · cases op with
      | tryAdd fs p =>
        rcases addRepo_mem_cases fs wp p s q h1 with h2 | ⟨hq, hd, ht⟩
        · exact Or.inl h2
        · exact Or.inr ⟨fs, p, List.mem_cons_self _ _, hq, hd, ht⟩
      | tryRemove p =>
        exact Or.inl (removeRepo_mem_subset wp p s q h1)
    · exact Or.inr ⟨fs, p, List.mem_cons_of_mem _ hmem, hrest⟩

theorem addRepo_eq_of_mem (fs : FS) (wp p : String) (s : WatcherState)
    (h : clean p ∈ s.currentlyWatching) : addRepo fs wp p s = s := by
  simp [addRepo, h]

theorem addRepo_eq_of_check_fail (fs : FS) (wp p : String) (s : WatcherState)
    (h : fs (clean p) ≠ FSEntry.dir ∨ fs (clean (clean p ++ "/" ++ wp)) ≠ FSEntry.dir) :
    addRepo fs wp p s = s := by
  simp only [addRepo]
  split
  · rfl
  · rename_i h1
    split
    · rfl
    · rename_i h2
      exfalso
      rcases h with h | h
      · exact h1 h
      · exact h2 h

/-! ### Claim theorems -/

/-- Claim C4: membership invariant of the registry.  Starting from the
empty registry, after any sequence of `tryAdd`/`tryRemove` operations every
member `q` was inserted by some `tryAdd` whose filesystem snapshot showed
both `q` and its `<q>/<watchPath>` target as existing directories; and the
existence of both directories is re-checked on every add attempt — when
either check fails, the add leaves membership, subscriptions and the log
completely unchanged. -/
theorem repoSet_membership_invariant (wp : String) (ops : List RepoOp) (q : String)
    (h : q ∈ (runOps wp ops initialState).currentlyWatching) :
    (∃ fs p, RepoOp.tryAdd fs p ∈ ops ∧ q = clean p ∧
       fs (clean p) = FSEntry.dir ∧ fs (clean (clean p ++ "/" ++ wp)) = FSEntry.dir) ∧
    (∀ (fs : FS) (p : String) (s : WatcherState),
       fs (clean p) ≠ FSEntry.dir ∨ fs (clean (clean p ++ "/" ++ wp)) ≠ FSEntry.dir →
       addRepo fs wp p s = s) := by
  constructor
  · rcases runOps_mem_cases wp ops initialState q h with h1 | h1
    · simp [initialState] at h1
    · exact h1
  · intro fs p s hne
    exact addRepo_eq_of_check_fail fs wp p s hne

/-- Witness for C4 at a concrete trace: one `tryAdd` of `/r/a` whose
snapshot has `/r/a` and `/r/a/src` as directories. -/
theorem repoSet_membership_invariant_witness :
    ("/r/a" ∈ (runOps "src"
        [RepoOp.tryAdd
          (fun q => if q = "/r/a" ∨ q = "/r/a/src" then FSEntry.dir else FSEntry.absent)
          "/r/a"]
        initialState).currentlyWatching) ∧
    ((∃ fs p, RepoOp.tryAdd fs p ∈
        [RepoOp.tryAdd
          (fun q => if q = "/r/a" ∨ q = "/r/a/src" then FSEntry.dir else FSEntry.absent)
          "/r/a"] ∧ "/r/a" = clean p ∧
        fs (clean p) = FSEntry.dir ∧ fs (clean (clean p ++ "/" ++ "src")) = FSEntry.dir) ∧
     (∀ (fs : FS) (p : String) (s : WatcherState),
        fs (clean p) ≠ FSEntry.dir ∨ fs (clean (clean p ++ "/" ++ "src")) ≠ FSEntry.dir →
        addRepo fs "src" p s = s)) :=
  ⟨by decide,
   repoSet_membership_invariant "src"
     [RepoOp.tryAdd
       (fun q => if q = "/r/a" ∨ q = "/r/a/src" then FSEntry.dir else FSEntry.absent)
       "/r/a"]
     "/r/a" (by decide)⟩

/-- Claim C5: `addRepo` is idempotent — adding the same path twice (against
the same filesystem snapshot) leaves the entire state (membership map,
subscription list and log) identical to adding it once; re-adding an
already-watched path is a silent no-op, and so is adding a non-qualifying
path. -/
theorem addRepo_idempotent (fs : FS) (wp p : String) (s : WatcherState) :
    addRepo fs wp p (addRepo fs wp p s) = addRepo fs wp p s ∧
    (clean p ∈ s.currentlyWatching → addRepo fs wp p s = s) ∧
    ((fs (clean p) ≠ FSEntry.dir ∨ fs (clean (clean p ++ "/" ++ wp)) ≠ FSEntry.dir) →
      addRepo fs wp p s = s) := by
  refine ⟨?_, fun h => addRepo_eq_of_mem fs wp p s h,
    fun h => addRepo_eq_of_check_fail fs wp p s h⟩
  by_cases h1 : fs (clean p) = FSEntry.dir
  · by_cases h2 : fs (clean (clean p ++ "/" ++ wp)) = FSEntry.dir
    · by_cases h3 : clean p ∈ s.currentlyWatching
      · rw [addRepo_eq_of_mem fs wp p s h3, addRepo_eq_of_mem fs wp p s h3]
      · apply addRepo_eq_of_mem
        simp [addRepo, h1, h2, h3, appendLog]
    · rw [addRepo_eq_of_check_fail fs wp p s (Or.inr h2),
        addRepo_eq_of_check_fail fs wp p s (Or.inr h2)]
  · rw [addRepo_eq_of_check_fail fs wp p s (Or.inl h1),
      addRepo_eq_of_check_fail fs wp p s (Or.inl h1)]

/-- Witness for C5: a fresh add of `/r/a` is idempotent; re-adding the
member `/r/a` of a populated state changes nothing; adding the
non-qualifying `/r/b` changes nothing. -/
theorem addRepo_idempotent_witness :
    (addRepo
        (fun q => if q = "/r/a" ∨ q = "/r/a/src" then FSEntry.dir else FSEntry.absent)
        "src" "/r/a"
        (addRepo
          (fun q => if q = "/r/a" ∨ q = "/r/a/src" then FSEntry.dir else FSEntry.absent)
          "src" "/r/a" initialState) =
      addRepo
        (fun q => if q = "/r/a" ∨ q = "/r/a/src" then FSEntry.dir else FSEntry.absent)
        "src" "/r/a" initialState) ∧
    (clean "/r/a" ∈ (WatcherState.mk ["/r/a"] ["/r/a/src"] []).currentlyWatching ∧
      addRepo
        (fun q => if q = "/r/a" ∨ q = "/r/a/src" then FSEntry.dir else FSEntry.absent)
        "src" "/r/a" (WatcherState.mk ["/r/a"] ["/r/a/src"] []) =
      WatcherState.mk ["/r/a"] ["/r/a/src"] []) ∧
    ((fun q => if q = "/r/a" ∨ q = "/r/a/src" then FSEntry.dir else FSEntry.absent)
        (clean "/r/b") ≠ FSEntry.dir ∧
      addRepo
        (fun q => if q = "/r/a" ∨ q = "/r/a/src" then FSEntry.dir else FSEntry.absent)
        "src" "/r/b" initialState = initialState) :=
  ⟨(addRepo_idempotent
      (fun q => if q = "/r/a" ∨ q = "/r/a/src" then FSEntry.dir else FSEntry.absent)
      "src" "/r/a" initialState).1,
   ⟨by decide,
    (addRepo_idempotent
      (fun q => if q = "/r/a" ∨ q = "/r/a/src" then FSEntry.dir else FSEntry.absent)
      "src" "/r/a" (WatcherState.mk ["/r/a"] ["/r/a/src"] [])).2.1 (by decide)⟩,
   ⟨by decide,
    (addRepo_idempotent
      (fun q => if q = "/r/a" ∨ q = "/r/a/src" then FSEntry.dir else FSEntry.absent)
      "src" "/r/b" initialState).2.2 (Or.inl (by decide))⟩⟩

/-- Claim C6: removing a path that is not a member leaves the membership
map, the subscription list and the log all unchanged (no removal message
is emitted and nothing fails). -/
theorem removeRepo_noop_nonmember (wp p : String) (s : WatcherState)
    (h : clean p ∉ s.currentlyWatching) : removeRepo wp p s = s := by
  simp only [removeRepo]
  split
  · rename_i h1
    exact absurd h1 h
  · rfl

/-- Witness for C6: removing the never-added `/r/x` from a populated state
is a no-op. -/
theorem removeRepo_noop_nonmember_witness :
    clean "/r/x" ∉ (WatcherState.mk ["/r/a"] ["/r/a/src"] []).currentlyWatching ∧
    removeRepo "src" "/r/x" (WatcherState.mk ["/r/a"] ["/r/a/src"] []) =
      WatcherState.mk ["/r/a"] ["/r/a/src"] [] :=
  ⟨by decide,
   removeRepo_noop_nonmember "src" "/r/x" (WatcherState.mk ["/r/a"] ["/r/a/src"] [])
     (by decide)⟩

/-- Claim C7: `processEvent` rejects (skips, so never runs the command
for) every event path whose basename fails the pattern — whether the path
exists as a file, as a directory, or not at all — and rejects every
directory and every nonexistent path even when the basename matches. -/
theorem processEvent_rejections (fs : FS) (root : String) (pattern : String → Bool)
    (name : String) :
    (fs name ≠ FSEntry.inaccessible → pattern (filepathSplit name).2 = false →
       processEvent fs root pattern name = ProcOutcome.skip) ∧
    (fs name = FSEntry.dir → processEvent fs root pattern name = ProcOutcome.skip) ∧
    (fs name = FSEntry.absent → processEvent fs root pattern name = ProcOutcome.skip) := by
  refine ⟨?_, ?_, ?_⟩
  · intro hacc hpat
    unfold processEvent
    cases hfs : fs name with
    | absent => rfl
    | inaccessible => exact absurd hfs hacc
    | dir => rfl
    | file => simp [hpat]
  · intro h
    simp only [processEvent, h]
  · intro h
    simp only [processEvent, h]

/-- Witness for C7: a basename mismatch on an existing file, a matching
basename on a directory, and a matching basename on a missing path are all
skipped. -/
theorem processEvent_rejections_witness :
    ((fun _ => FSEntry.file) "/data/repos/a/src/b.bin" ≠ FSEntry.inaccessible ∧
      (fun b => b == "main.txt") (filepathSplit "/data/repos/a/src/b.bin").2 = false ∧
      processEvent (fun _ => FSEntry.file) "/data/repos" (fun b => b == "main.txt")
        "/data/repos/a/src/b.bin" = ProcOutcome.skip) ∧
    ((fun _ => FSEntry.dir) "/data/repos/a/src/main.txt" = FSEntry.dir ∧
      processEvent (fun _ => FSEntry.dir) "/data/repos" (fun b => b == "main.txt")
        "/data/repos/a/src/main.txt" = ProcOutcome.skip) ∧
    ((fun _ => FSEntry.absent) "/data/repos/a/src/main.txt" = FSEntry.absent ∧
      processEvent (fun _ => FSEntry.absent) "/data/repos" (fun b => b == "main.txt")
        "/data/repos/a/src/main.txt" = ProcOutcome.skip) :=
  ⟨⟨by decide, by decide,
    (processEvent_rejections (fun _ => FSEntry.file) "/data/repos"
      (fun b => b == "main.txt") "/data/repos/a/src/b.bin").1 (by decide) (by decide)⟩,
   ⟨rfl,
    (processEvent_rejections (fun _ => FSEntry.dir) "/data/repos"
      (fun b => b == "main.txt") "/data/repos/a/src/main.txt").2.1 rfl⟩,
   ⟨rfl,
    (processEvent_rejections (fun _ => FSEntry.absent) "/data/repos"
      (fun b => b == "main.txt") "/data/repos/a/src/main.txt").2.2 rfl⟩⟩

/-- Claim C8: the root-level event loop dispatches a Create or Chmod event
to `addRepo` on the event path, a Rename or Remove event to `removeRepo`
on the event path, and leaves the state unchanged for any other operation
(e.g. Write, or an empty operation mask). -/
theorem processReposEvent_dispatch (fs : FS) (wp name : String) (s : WatcherState) :
    processReposEvent fs wp ⟨name, fsnotifyCreate⟩ s = addRepo fs wp name s ∧
    processReposEvent fs wp ⟨name, fsnotifyChmod⟩ s = addRepo fs wp name s ∧
    processReposEvent fs wp ⟨name, fsnotifyRename⟩ s = removeRepo wp name s ∧
    processReposEvent fs wp ⟨name, fsnotifyRemove⟩ s = removeRepo wp name s ∧
    processReposEvent fs wp ⟨name, fsnotifyWrite⟩ s = s ∧
    processReposEvent fs wp ⟨name, 0⟩ s = s := by
  refine ⟨?_, ?_, ?_, ?_, ?_, ?_⟩ <;>
    simp [processReposEvent, fsnotifyCreate, fsnotifyChmod, fsnotifyRename,
      fsnotifyRemove, fsnotifyWrite]

/-- Claim C9: on a qualifying event the configured command runs
synchronously; a failing command (non-zero exit or start failure) is
logged at error level after the execution message, a succeeding command
has its standard output logged at info level; in both cases the handler
returns normally (the loop goes on to the next event) and neither the
membership map nor the subscription list changes. -/
theorem command_failure_tolerated (fs : FS) (root execute : String)
    (pattern : String → Bool) (runCommand : String → Except String String)
    (name repoPath : String) (s : WatcherState)
    (hrun : processEvent fs root pattern name = ProcOutcome.run repoPath) :
    (∀ msg, runCommand repoPath = Except.error msg →
       processEventFull fs root execute pattern runCommand name s =
         some { s with logLines := s.logLines ++
           [(LogType.info,
             "[RepoWatch] Executing \"" ++ execute ++ "\" in \"" ++ repoPath ++ "\""),
            (LogType.error, msg)] }) ∧
    (∀ output, runCommand repoPath = Except.ok output →
       processEventFull fs root execute pattern runCommand name s =
         some { s with logLines := s.logLines ++
           [(LogType.info,
             "[RepoWatch] Executing \"" ++ execute ++ "\" in \"" ++ repoPath ++ "\""),
            (LogType.info, output)] }) ∧
    (∀ s2, processEventFull fs root execute pattern runCommand name s = some s2 →
       s2.currentlyWatching = s.currentlyWatching ∧ s2.watcherSubs = s.watcherSubs) ∧
    (∃ s2, processEventFull fs root execute pattern runCommand name s = some s2 ∧
       ∀ rest, fileLoop fs root execute pattern runCommand (name :: rest) s =
         fileLoop fs root execute pattern runCommand rest s2) := by
  refine ⟨?_, ?_, ?_, ?_⟩
  · intro msg hcmd
    simp [processEventFull, hrun, hcmd, appendLog]
  · intro output hcmd
    simp [processEventFull, hrun, hcmd, appendLog]
  · intro s2 h
    cases hcmd : runCommand repoPath with
    | error msg =>
      simp [processEventFull, hrun, hcmd, appendLog] at h
      rw [← h]
      exact ⟨rfl, rfl⟩
    | ok output =>
      simp [processEventFull, hrun, hcmd, appendLog] at h
      rw [← h]
      exact ⟨rfl, rfl⟩
  · cases hcmd : runCommand repoPath with
    | error msg =>
      refine ⟨appendLog LogType.error msg (appendLog LogType.info
          ("[RepoWatch] Executing \"" ++ execute ++ "\" in \"" ++ repoPath ++ "\"") s),
        ?_, fun rest => ?_⟩
      · simp [processEventFull, hrun, hcmd, appendLog]
      · simp [fileLoop, processEventFull, hrun, hcmd, appendLog]
    | ok output =>
      refine ⟨appendLog LogType.info output (appendLog LogType.info
          ("[RepoWatch] Executing \"" ++ execute ++ "\" in \"" ++ repoPath ++ "\"") s),
        ?_, fun rest => ?_⟩
      · simp [processEventFull, hrun, hcmd, appendLog]
      · simp [fileLoop, processEventFull, hrun, hcmd, appendLog]

/-- Witness for C9 on the spec's example event, with a command that fails
(`exit status 1`) — the error is logged and processing returns normally. -/
theorem command_failure_tolerated_witness :
    processEvent
        (fun p => if p = "/data/repos/alpha/src/main.txt" then FSEntry.file else FSEntry.absent)
        "/data/repos" (fun b => b == "main.txt") "/data/repos/alpha/src/main.txt" =
      ProcOutcome.run "data/repos/alpha" ∧
    processEventFull
        (fun p => if p = "/data/repos/alpha/src/main.txt" then FSEntry.file else FSEntry.absent)
        "/data/repos" "make build" (fun b => b == "main.txt")
        (fun _ => Except.error "exit status 1") "/data/repos/alpha/src/main.txt"
        initialState =
      some { initialState with logLines := initialState.logLines ++
        [(LogType.info,
          "[RepoWatch] Executing \"" ++ "make build" ++ "\" in \"" ++ "data/repos/alpha" ++ "\""),
         (LogType.error, "exit status 1")] } :=
  ⟨by decide,
   (command_failure_tolerated
     (fun p => if p = "/data/repos/alpha/src/main.txt" then FSEntry.file else FSEntry.absent)
     "/data/repos" "make build" (fun b => b == "main.txt")
     (fun _ => Except.error "exit status 1") "/data/repos/alpha/src/main.txt"
     "data/repos/alpha" initialState (by decide)).1 "exit status 1" rfl⟩

/-- Claim C10: the stat-check in the file-event handler skips only the
not-exist error: when `os.Stat` fails with any other error the nil
`FileInfo` is dereferenced (`info.IsDir()` on nil) instead of the event
being skipped; under the precondition that stat succeeds or fails with
not-exist, the handler never reaches the nil dereference.  The startup
check in `watchRepos` has the same pattern. -/
theorem stat_error_nil_dereference (fs : FS) (root : String) (pattern : String → Bool)
    (name : String) :
    (fs name = FSEntry.inaccessible →
       processEvent fs root pattern name = ProcOutcome.nilDeref) ∧
    (fs name ≠ FSEntry.inaccessible →
       processEvent fs root pattern name ≠ ProcOutcome.nilDeref) ∧
    (fs root = FSEntry.inaccessible →
       watchReposStat fs root = StartupCheckOutcome.nilDeref) := by
  refine ⟨?_, ?_, ?_⟩
  · intro h
    simp only [processEvent, h]
  · intro hacc
    cases hfs : fs name with
    | absent => simp [processEvent, hfs]
    | inaccessible => exact absurd hfs hacc
    | dir => simp [processEvent, hfs]
    | file =>
      intro hcon
      simp only [processEvent, hfs] at hcon
      split at hcon
      · exact ProcOutcome.noConfusion hcon
      · split at hcon
        · exact ProcOutcome.noConfusion hcon
        · exact ProcOutcome.noConfusion hcon
  · intro h
    simp only [watchReposStat, h]

/-- Witness for C10: a permission-denied stat on the event path reaches the
nil dereference; a not-exist stat does not; a permission-denied stat on the
repos root at startup reaches the nil dereference in `watchRepos`. -/
theorem stat_error_nil_dereference_witness :
    ((fun _ => FSEntry.inaccessible) "/data/repos/a/src/m.txt" = FSEntry.inaccessible ∧
      processEvent (fun _ => FSEntry.inaccessible) "/data/repos" (fun _ => true)
        "/data/repos/a/src/m.txt" = ProcOutcome.nilDeref) ∧
    ((fun _ => FSEntry.absent) "/data/repos/a/src/m.txt" ≠ FSEntry.inaccessible ∧
      processEvent (fun _ => FSEntry.absent) "/data/repos" (fun _ => true)
        "/data/repos/a/src/m.txt" ≠ ProcOutcome.nilDeref) ∧
    ((fun _ => FSEntry.inaccessible) "/data/repos" = FSEntry.inaccessible ∧
      watchReposStat (fun _ => FSEntry.inaccessible) "/data/repos" =
        StartupCheckOutcome.nilDeref) :=
  ⟨⟨rfl,
    (stat_error_nil_dereference (fun _ => FSEntry.inaccessible) "/data/repos"
      (fun _ => true) "/data/repos/a/src/m.txt").1 rfl⟩,
   ⟨by decide,
    (stat_error_nil_dereference (fun _ => FSEntry.absent) "/data/repos"
      (fun _ => true) "/data/repos/a/src/m.txt").2.1 (by decide)⟩,
   ⟨rfl,
    (stat_error_nil_dereference (fun _ => FSEntry.inaccessible) "/data/repos"
      (fun _ => true) "/data/repos").2.2 rfl⟩⟩

/-- Claim C1, as stated, is false on the code: for
`reposRoot = "/data/repos"` the event `/data/repos/alpha/src/main.txt`
resolves to `"data/repos/alpha"` — `strings.Join` over the
empty-filtered segments drops the leading separator — not to
`"/data/repos/alpha"`. -/
theorem repoPath_resolution_counterexample :
    processEvent
        (fun p => if p = "/data/repos/alpha/src/main.txt" then FSEntry.file else FSEntry.absent)
        "/data/repos" (fun b => b == "main.txt") "/data/repos/alpha/src/main.txt" =
      ProcOutcome.run "data/repos/alpha" ∧
    ProcOutcome.run "data/repos/alpha" ≠ ProcOutcome.run "/data/repos/alpha" := by
  refine ⟨by decide, by decide⟩

/-- Claim C1 (amended): the event resolves to the string
`"data/repos/alpha"`, obtained by taking the first
`len(reposRootSegments)+1` segments of the event's directory (empty
segments discarded) and rejoining them with the OS separator — which
yields no leading separator. -/
theorem repoPath_resolution_example :
    processEvent
        (fun p => if p = "/data/repos/alpha/src/main.txt" then FSEntry.file else FSEntry.absent)
        "/data/repos" (fun b => b == "main.txt") "/data/repos/alpha/src/main.txt" =
      ProcOutcome.run "data/repos/alpha" ∧
    "data/repos/alpha" =
      stringsJoin separator
        ((filterEmptyParts (stringsSplit (filepathSplit "/data/repos/alpha/src/main.txt").1)).take
          ((filterEmptyParts (stringsSplit "/data/repos")).length + 1)) := by
  refine ⟨by decide, by decide⟩

/-- Claim C2: the segment slicing is only in bounds for paths strictly
inside the repos root.  Concretely, for the existing regular file
`/data/notes.txt`, whose basename matches the pattern but whose directory
has fewer than `len(reposRootSegments)+1` segments, the Go slice
`dirPathParts[:len(reposRootParts)+1]` is out of range — `processEvent`
reaches the out-of-bounds branch instead of a no-match result. -/
theorem slice_out_of_range_reachable :
    (fun p => if p = "/data/notes.txt" then FSEntry.file else FSEntry.absent)
        "/data/notes.txt" = FSEntry.file ∧
    (fun _ => true) (filepathSplit "/data/notes.txt").2 = true ∧
    (filterEmptyParts (stringsSplit (filepathSplit "/data/notes.txt").1)).length <
      (filterEmptyParts (stringsSplit "/data/repos")).length + 1 ∧
    processEvent
        (fun p => if p = "/data/notes.txt" then FSEntry.file else FSEntry.absent)
        "/data/repos" (fun _ => true) "/data/notes.txt" =
      ProcOutcome.sliceOutOfRange := by
  refine ⟨by decide, by decide, by decide, by decide⟩

/-- Claim C3 fails on the code: `checkError` only logs a non-nil error and
returns, so when `regexp.Compile` fails, `main` still proceeds to
`watchRepos` with a nil `watcherRegexp`; the compile error is on the log
and `reachedWatchRepos` is true, contradicting "abort before entering the
steady-state watch loops". -/
theorem invalid_pattern_still_reaches_watchRepos :
    (mainAfterConfig (Except.error "error parsing regexp: missing closing )")
        []).reachedWatchRepos = true ∧
    (mainAfterConfig (Except.error "error parsing regexp: missing closing )")
        []).watcherRegexp = none ∧
    (mainAfterConfig (Except.error "error parsing regexp: missing closing )")
        []).logs = [(LogType.error, "error parsing regexp: missing closing )")] :=
  ⟨rfl, rfl, rfl⟩

end RepoWatcher
